import Mathlib

/-!
Codebase Symbol Index and Change-Impact Engine: a verified model.

A shallow embedding of the change-impact core of the `code-agent` backend:
the impact analyzer (`backend/analyzers/impact_analyzer.py`) and the
codebase indexer (`backend/indexers/codebase_indexer.py`), together with
the data model of `backend/models/code_symbol.py`.

Python dictionaries are modelled as insertion-ordered association lists,
Python sets of strings as `Finset String` (or deduplicated lists where the
iteration order matters), and numeric scores as exact rationals `ℚ`
(floating-point rounding is idealized away; the one place where IEEE
semantics is essential — division by a zero norm product producing NaN —
is modelled explicitly with the `NpFloat` type below).
-/

namespace CodeAgent

/-- A code symbol record. `models/code_symbol.py` declares `name`,
`symbol_type`, `file_path`, `start_line`, `end_line`, `signature`,
`docstring`, `parent`, `complexity_score` (plus set-valued bookkeeping
fields not read by the analyzer); the analyzer and indexer additionally
read `id`, `parameters`, `return_type` and `complexity`, whose declaring
class (`CodeSymbol` as imported by `impact_analyzer.py`) is absent from
the sources, so those fields are modelled from their uses. -/
structure CodeSymbol where
  id : String
  name : String
  symbol_type : String
  file_path : String
  start_line : Nat
  end_line : Nat
  signature : String
  docstring : Option String
  parent : Option String
  parameters : List String
  return_type : Option String
  complexity : Int
  complexity_score : Int
deriving Repr, DecidableEq

/-- A directed reference edge between two symbols. The class `CodeReference`
is imported by `impact_analyzer.py` but not declared under the sources; its
fields are modelled from their uses in `build_dependency_graphs`
(`source_symbol_id`, `target_symbol_id`, `reference_type`). -/
structure CodeReference where
  source_symbol_id : String
  target_symbol_id : String
  reference_type : String
deriving Repr, DecidableEq

/-- The impact report produced by one analysis run. The class
`ChangeAnalysis` is imported by `impact_analyzer.py` but not declared under
the sources; its fields are modelled from the keyword construction at the
end of `analyze_symbol_impact`. -/
structure ChangeAnalysis where
  changed_symbols : List CodeSymbol
  direct_impacts : List String
  indirect_impacts : List String
  affected_files : List String
  risk_level : String
  confidence_score : ℚ
  business_impact : List String
  suggested_tests : List String
deriving Repr, DecidableEq

/-- One record of `analyze_breaking_changes`' result list. The Python code
emits plain dictionaries of three shapes; the set-valued entries
(`removed_params`, `added_params`, converted to lists of unspecified order
by `list(...)`) are modelled as finite sets. -/
inductive BreakingChange where
  | signature_change (symbol_id symbol_name old_signature new_signature risk_level : String)
      (affected_dependents : List String)
  | parameter_change (symbol_id symbol_name : String)
      (removed_params added_params : Finset String) (risk_level : String)
      (affected_dependents : List String)
  | symbol_removed (symbol_id symbol_name symbol_type risk_level : String)
      (affected_dependents : List String)
deriving DecidableEq

/-- The symbol identity a breaking-change record reports on. -/
def BreakingChange.symbolId : BreakingChange → String
  | .signature_change sid _ _ _ _ _ => sid
  | .parameter_change sid _ _ _ _ _ => sid
  | .symbol_removed sid _ _ _ _ => sid

/-- A `networkx.DiGraph` over symbol identities: node list in insertion
order, edge list in insertion order with no duplicate pairs, and the
structural `networkx` guarantee that every edge endpoint is a node. -/
structure DiGraph where
  nodes : List String
  edges : List (String × String)
  edge_src_mem : ∀ e ∈ edges, e.1 ∈ nodes
  edge_tgt_mem : ∀ e ∈ edges, e.2 ∈ nodes

/-- The empty graph (`nx.DiGraph()` / `.clear()`). -/
def DiGraph.empty : DiGraph where
  nodes := []
  edges := []
  edge_src_mem := by intro e h; cases h
  edge_tgt_mem := by intro e h; cases h

/-- Model of `G.add_node n`: appends the node unless already present. -/
def DiGraph.addNode (g : DiGraph) (n : String) : DiGraph :=
  if n ∈ g.nodes then g
  else
    { nodes := g.nodes ++ [n]
      edges := g.edges
      edge_src_mem := fun e he => List.mem_append_left _ (g.edge_src_mem e he)
      edge_tgt_mem := fun e he => List.mem_append_left _ (g.edge_tgt_mem e he) }

theorem DiGraph.addNode_edges (g : DiGraph) (n : String) :
    (g.addNode n).edges = g.edges := by
  unfold DiGraph.addNode; split <;> rfl

theorem DiGraph.mem_addNode_self (g : DiGraph) (n : String) :
    n ∈ (g.addNode n).nodes := by
  unfold DiGraph.addNode
  split
  · assumption
  · exact List.mem_append_right _ (List.mem_singleton.mpr rfl)

theorem DiGraph.mem_addNode_of_mem (g : DiGraph) (n m : String) (h : m ∈ g.nodes) :
    m ∈ (g.addNode n).nodes := by
  unfold DiGraph.addNode
  split
  · exact h
  · exact List.mem_append_left _ h

/-- Model of `G.add_edge s t`: `networkx` first ensures both endpoints are nodes,
then records the edge (a repeated pair is not duplicated; `add_node`
leaves the edge list untouched, so the duplicate test against `g.edges`
is the same test the original performs against the updated graph). -/
def DiGraph.addEdge (g : DiGraph) (s t : String) : DiGraph :=
  if h : (s, t) ∈ g.edges then (g.addNode s).addNode t
  else
    { nodes := ((g.addNode s).addNode t).nodes
      edges := g.edges ++ [(s, t)]
      edge_src_mem := by
        intro e he
        rcases List.mem_append.mp he with h1 | h1
        · exact DiGraph.mem_addNode_of_mem _ _ _
            (DiGraph.mem_addNode_of_mem _ _ _ (g.edge_src_mem e h1))
        · rcases List.mem_singleton.mp h1 with rfl
          exact DiGraph.mem_addNode_of_mem _ _ _ (DiGraph.mem_addNode_self g s)
      edge_tgt_mem := by
        intro e he
        rcases List.mem_append.mp he with h1 | h1
        · exact DiGraph.mem_addNode_of_mem _ _ _
            (DiGraph.mem_addNode_of_mem _ _ _ (g.edge_tgt_mem e h1))
        · rcases List.mem_singleton.mp h1 with rfl
          exact DiGraph.mem_addNode_self _ t }

theorem DiGraph.mem_addEdge_edges (g : DiGraph) (s t a b : String) :
    (a, b) ∈ (g.addEdge s t).edges ↔ (a, b) ∈ g.edges ∨ (a = s ∧ b = t) := by
  unfold DiGraph.addEdge
  split
  · rename_i h
    rw [DiGraph.addNode_edges, DiGraph.addNode_edges]
    constructor
    · intro hm; exact Or.inl hm
    · rintro (hm | ⟨rfl, rfl⟩)
      · exact hm
      · exact h
  · constructor
    · intro hm
      rcases List.mem_append.mp hm with h1 | h1
      · exact Or.inl h1
      · rcases List.mem_singleton.mp h1 with h2
        exact Or.inr ⟨congrArg Prod.fst h2, congrArg Prod.snd h2⟩
    · rintro (hm | ⟨rfl, rfl⟩)
      · exact List.mem_append_left _ hm
      · exact List.mem_append_right _ (List.mem_singleton.mpr rfl)

/-- Model of `G.predecessors n`: sources of the edges whose target is `n`. -/
def DiGraph.predecessors (g : DiGraph) (n : String) : List String :=
  (g.edges.filter (fun e => e.2 = n)).map Prod.fst

theorem DiGraph.mem_predecessors (g : DiGraph) (n p : String) :
    p ∈ g.predecessors n ↔ (p, n) ∈ g.edges := by
  unfold DiGraph.predecessors
  constructor
  · intro h
    rcases List.mem_map.mp h with ⟨e, he, rfl⟩
    have := List.mem_filter.mp he
    have h2 : e.2 = n := by simpa using this.2
    rcases e with ⟨a, b⟩
    cases h2
    exact this.1
  · intro h
    exact List.mem_map.mpr ⟨(p, n), List.mem_filter.mpr ⟨h, by simp⟩, rfl⟩

theorem DiGraph.predecessors_mem_nodes (g : DiGraph) (n p : String)
    (h : p ∈ g.predecessors n) : p ∈ g.nodes :=
  g.edge_src_mem _ ((g.mem_predecessors n p).mp h)

/-- Adding a fresh node to the visited list strictly shrinks the count of
unvisited graph nodes (the termination measure of the BFS loop). -/
theorem length_filter_notMem_cons_lt (c : String) (visited : List String) :
    ∀ nodes : List String, c ∈ nodes → c ∉ visited →
      (nodes.filter (fun n => n ∉ c :: visited)).length <
        (nodes.filter (fun n => n ∉ visited)).length := by
  intro nodes hc hnc
  have hmono : ∀ n : String,
      decide (n ∉ c :: visited) = true → decide (n ∉ visited) = true := by
    intro n h
    simp only [decide_eq_true_eq, List.mem_cons, not_or] at h ⊢
    exact h.2
  induction nodes with
  | nil => cases hc
  | cons a l ih =>
    rw [List.filter_cons, List.filter_cons]
    by_cases hac : a = c
    · subst hac
      rw [show (decide (a ∉ a :: visited)) = false by simp,
        show (decide (a ∉ visited)) = true by simpa using hnc]
      simp only [if_false, if_true, List.length_cons, Bool.false_eq_true]
      exact Nat.lt_succ_of_le (List.Sublist.length_le (List.monotone_filter_right l hmono))
    · have hml : c ∈ l := by
        rcases List.mem_cons.mp hc with h | h
        · exact absurd h.symm hac
        · exact h
      by_cases hav : a ∈ visited
      · rw [show (decide (a ∉ c :: visited)) = false by simp [hav],
          show (decide (a ∉ visited)) = false by simp [hav]]
        simpa using ih hml
      · rw [show (decide (a ∉ c :: visited)) = true by simp [hac, hav],
          show (decide (a ∉ visited)) = true by simp [hav]]
        simpa using Nat.succ_lt_succ (ih hml)

/-- The BFS loop of `_get_indirect_dependents`, with the queue, visited set
and accumulated indirect-dependent list explicit. Returns the final visited
list together with the accumulated (pre-deduplication) dependent list. The
proof argument `hq` records the `networkx` invariant that every queued
identity is a graph node; termination is by the lexicographic measure
(number of unvisited nodes, queue length). -/
def bfsLoop (g : DiGraph) (maxDepth : ℕ) :
    (queue : List (String × ℕ)) → (visited : List String) → (acc : List String) →
    (hq : ∀ x ∈ queue, x.1 ∈ g.nodes) → List String × List String
  | [], visited, acc, _ => (visited, acc)
  | (current, depth) :: rest, visited, acc, hq =>
    if maxDepth ≤ depth then
      bfsLoop g maxDepth rest visited acc (fun x hx => hq x (List.mem_cons_of_mem _ hx))
    else if hcv : current ∈ visited then
      bfsLoop g maxDepth rest visited acc (fun x hx => hq x (List.mem_cons_of_mem _ hx))
    else
      bfsLoop g maxDepth
        (rest ++ ((g.predecessors current).filter
          (fun p => p ∉ current :: visited)).map (fun p => (p, depth + 1)))
        (current :: visited)
        (if 0 < depth then
          acc ++ (g.predecessors current).filter (fun p => p ∉ current :: visited)
         else acc)
        (by
          intro x hx
          rcases List.mem_append.mp hx with h1 | h1
          · exact hq x (List.mem_cons_of_mem _ h1)
          · rcases List.mem_map.mp h1 with ⟨p, hp, rfl⟩
            exact g.predecessors_mem_nodes current p (List.mem_filter.mp hp).1)
termination_by queue visited _ _ =>
  ((g.nodes.filter (fun n => n ∉ visited)).length, queue.length)
decreasing_by
  · apply Prod.Lex.right
    simp [Nat.lt_succ_self]
  · apply Prod.Lex.right
    simp [Nat.lt_succ_self]
  · apply Prod.Lex.left
    exact length_filter_notMem_cons_lt current visited g.nodes
      (hq _ (List.mem_cons_self _ _)) hcv

/-- The BFS state of `_get_indirect_dependents`: the final visited list and the
raw (pre-`set()`) indirect-dependent list, `([], [])` when the start symbol
is not a graph node. -/
def bfsState (g : DiGraph) (symbol_id : String) (max_depth : ℕ) :
    List String × List String :=
  if h : symbol_id ∈ g.nodes then
    bfsLoop g max_depth [(symbol_id, 0)] [] []
      (by intro x hx; rcases List.mem_singleton.mp hx with rfl; exact h)
  else ([], [])

/-- Model of `_get_indirect_dependents(symbol_id, max_depth)`: the accumulated
dependent list, deduplicated (`list(set(indirect_deps))`, whose arbitrary
set order is modelled as first-occurrence order). -/
def get_indirect_dependents (g : DiGraph) (symbol_id : String) (max_depth : ℕ) :
    List String :=
  (bfsState g symbol_id max_depth).2.dedup

/-- Model of `_get_direct_dependents(symbol_id)`: the graph predecessors, or `[]`
when the symbol is not a graph node. -/
def get_direct_dependents (g : DiGraph) (symbol_id : String) : List String :=
  if symbol_id ∈ g.nodes then g.predecessors symbol_id else []

/-- A directed path of length `k` from `a` to `b` along the graph's edges.
`HasPath g n s k` with `n` a dependent and `s` the changed symbol witnesses
that `n` reaches `s` in `k` reference steps, so the BFS distance from the
changed symbol to `n` is at most `k`. -/
inductive HasPath (g : DiGraph) : String → String → ℕ → Prop where
  | refl (a : String) : HasPath g a a 0
  | step {a b c : String} {k : ℕ} (hab : (a, b) ∈ g.edges) (h : HasPath g b c k) :
      HasPath g a c (k + 1)

/-- The analyzer's configurable risk thresholds (`self.risk_thresholds`). -/
structure RiskThresholds where
  low : ℚ
  medium : ℚ
  high : ℚ
  critical : ℚ
deriving Repr, DecidableEq

/-- The default thresholds set in `ImpactAnalyzer.__init__`. -/
def defaultRiskThresholds : RiskThresholds :=
  { low := 5, medium := 15, high := 30, critical := 50 }

/-- Spec-side weighted sum: "direct-impact count + 0.3×indirect-impact
count + 0.5×affected-file count" (rational idealization of the float
arithmetic). -/
def impactScore (direct_count indirect_count file_count : ℕ) : ℚ :=
  (direct_count : ℚ) + (3 / 10) * (indirect_count : ℚ) + (1 / 2) * (file_count : ℚ)

/-- Model of `_calculate_risk_level`: the inline score
`direct_count + (indirect_count * 0.3) + (file_count * 0.5)` mapped
through the thresholds by an `if/elif` cascade. -/
def calculate_risk_level (th : RiskThresholds) (direct_count indirect_count file_count : ℕ) :
    String :=
  let impact_score : ℚ :=
    (direct_count : ℚ) + ((indirect_count : ℚ) * (3 / 10)) + ((file_count : ℚ) * (1 / 2))
  if th.critical ≤ impact_score then "critical"
  else if th.high ≤ impact_score then "high"
  else if th.medium ≤ impact_score then "medium"
  else "low"

/-- Model of `_calculate_confidence_score`: base 0.5, plus 0.2 for a graph with more
than 100 nodes, 0.1 for more than 200 edges, 0.1 each for nonempty direct
and indirect impact lists, capped at 1.0. -/
def calculate_confidence_score (g : DiGraph) (direct_impacts indirect_impacts : List String) :
    ℚ :=
  let c1 : ℚ := 1 / 2
  let c2 := if 100 < g.nodes.length then c1 + 2 / 10 else c1
  let c3 := if 200 < g.edges.length then c2 + 1 / 10 else c2
  let c4 := if direct_impacts ≠ [] then c3 + 1 / 10 else c3
  let c5 := if indirect_impacts ≠ [] then c4 + 1 / 10 else c4
  min c5 1

/-- First-match association-list lookup, the model of `dict[key]` /
`key in dict` on Python's insertion-ordered dictionaries. -/
def dictLookup {α : Type} : List (String × α) → String → Option α
  | [], _ => none
  | (k, v) :: rest, key => if k = key then some v else dictLookup rest key

theorem dictLookup_eq_none_iff {α : Type} (l : List (String × α)) (key : String) :
    dictLookup l key = none ↔ key ∉ l.map Prod.fst := by
  induction l with
  | nil => simp [dictLookup]
  | cons e rest ih =>
    rcases e with ⟨k, v⟩
    by_cases hk : k = key
    · subst hk
      simp [dictLookup]
    · simp only [dictLookup, if_neg hk, List.map_cons, List.mem_cons, ih]
      constructor
      · intro h
        rintro (h2 | h2)
        · exact hk h2.symm
        · exact h h2
      · intro h h2
        exact h (Or.inr h2)

/-- Substring test (Python's `in` on strings). -/
def strContains (s sub : String) : Bool :=
  decide (List.IsInfix sub.toList s.toList)

/-- Python `set.add` on a set modelled as an insertion-ordered
duplicate-free list. -/
def insertNew (l : List String) (x : String) : List String :=
  if x ∈ l then l else l ++ [x]

/-- The three graphs held by an `ImpactAnalyzer`. -/
structure AnalyzerGraphs where
  dependency_graph : DiGraph
  call_graph : DiGraph
  inheritance_graph : DiGraph

/-- One iteration of the reference loop of `build_dependency_graphs`: the
edge is admitted only if both endpoint identities are keys of the symbol
table; a `call` reference additionally goes to the call graph and an
`inherit` reference to the inheritance graph. -/
def addReference (symbolIds : List String) (gs : AnalyzerGraphs) (ref : CodeReference) :
    AnalyzerGraphs :=
  if ref.source_symbol_id ∈ symbolIds ∧ ref.target_symbol_id ∈ symbolIds then
    { dependency_graph :=
        gs.dependency_graph.addEdge ref.source_symbol_id ref.target_symbol_id
      call_graph :=
        if ref.reference_type = "call" then
          gs.call_graph.addEdge ref.source_symbol_id ref.target_symbol_id
        else gs.call_graph
      inheritance_graph :=
        if ref.reference_type = "inherit" then
          gs.inheritance_graph.addEdge ref.source_symbol_id ref.target_symbol_id
        else gs.inheritance_graph }
  else gs

/-- Model of `build_dependency_graphs(symbols, references)`: clears the three
graphs, adds every symbol identity as a node of each, then walks the
reference list admitting edges. -/
def build_dependency_graphs (symbols : List (String × CodeSymbol))
    (references : List CodeReference) : AnalyzerGraphs :=
  let ids := symbols.map Prod.fst
  let g0 := ids.foldl (fun g n => g.addNode n) DiGraph.empty
  references.foldl (addReference ids)
    { dependency_graph := g0, call_graph := g0, inheritance_graph := g0 }

/-- Model of `_assess_signature_change_risk`: removed parameters are high risk,
added parameters medium, a changed return type medium, otherwise low. -/
def assess_signature_change_risk (old_symbol new_symbol : CodeSymbol) : String :=
  let old_params := old_symbol.parameters.toFinset
  let new_params := new_symbol.parameters.toFinset
  if old_params \ new_params ≠ ∅ then "high"
  else if new_params \ old_params ≠ ∅ then "medium"
  else if old_symbol.return_type ≠ new_symbol.return_type then "medium"
  else "low"

/-- The loop body of `analyze_breaking_changes` for one entry of the old
symbol table: a signature-change record and/or a parameter-change record
when the identity survives, a critical symbol-removed record when the
identity is absent from the new table. -/
def breakingChangeRecords (g : DiGraph) (new_symbols : List (String × CodeSymbol))
    (entry : String × CodeSymbol) : List BreakingChange :=
  let symbol_id := entry.1
  let old_symbol := entry.2
  match dictLookup new_symbols symbol_id with
  | some new_symbol =>
    let sigRecs :=
      if old_symbol.signature ≠ new_symbol.signature then
        [BreakingChange.signature_change symbol_id old_symbol.name
          old_symbol.signature new_symbol.signature
          (assess_signature_change_risk old_symbol new_symbol)
          (get_direct_dependents g symbol_id)]
      else []
    let old_params := old_symbol.parameters.toFinset
    let new_params := new_symbol.parameters.toFinset
    let paramRecs :=
      if old_params ≠ new_params then
        [BreakingChange.parameter_change symbol_id old_symbol.name
          (old_params \ new_params) (new_params \ old_params)
          (if old_params \ new_params ≠ ∅ then "high" else "medium")
          (get_direct_dependents g symbol_id)]
      else []
    sigRecs ++ paramRecs
  | none =>
    [BreakingChange.symbol_removed symbol_id old_symbol.name
      old_symbol.symbol_type "critical" (get_direct_dependents g symbol_id)]

/-- Model of `analyze_breaking_changes(old_symbols, new_symbols)`: the loop over the
old symbol table, concatenating each entry's records in iteration order. -/
def analyze_breaking_changes (g : DiGraph) (old_symbols new_symbols : List (String × CodeSymbol)) :
    List BreakingChange :=
  old_symbols.flatMap (breakingChangeRecords g new_symbols)

/-- The keyword table of `_assess_business_impact`, in insertion order. -/
def criticalKeywords : List (String × String) :=
  [("auth", "认证相关"), ("login", "登录功能"), ("payment", "支付功能"),
   ("order", "订单处理"), ("user", "用户管理"), ("admin", "管理功能"),
   ("security", "安全功能"), ("validate", "验证逻辑"), ("process", "核心处理"),
   ("create", "创建功能"), ("delete", "删除功能"), ("update", "更新功能")]

/-- Model of `_assess_business_impact`: keyword hits on the lowercased symbol name,
one path-based label, and a high-complexity label. -/
def assess_business_impact (symbol : CodeSymbol) : List String :=
  let nameL := symbol.name.toLower
  let fromKeywords :=
    (criticalKeywords.filter (fun kv => strContains nameL kv.1)).map Prod.snd
  let pathL := symbol.file_path.toLower
  let fromPath :=
    if strContains pathL ("api") || strContains pathL ("service") then ["核心API服务"]
    else if strContains pathL ("model") || strContains pathL ("entity") then ["数据模型层"]
    else if strContains pathL ("controller") then ["控制器层"]
    else if strContains pathL ("util") || strContains pathL ("helper") then ["工具函数层"]
    else []
  let fromComplexity := if 10 < symbol.complexity then ["高复杂度函数"] else []
  fromKeywords ++ fromPath ++ fromComplexity

/-- The state of an `ImpactAnalyzer` as read by `analyze_symbol_impact`:
the dependency graph, its `symbol=` node attributes, and the analysis
configuration (`max_depth`, `risk_thresholds`). -/
structure ImpactAnalyzerState where
  dependency_graph : DiGraph
  node_symbols : List (String × CodeSymbol)
  max_depth : ℕ
  risk_thresholds : RiskThresholds

/-- A fresh `ImpactAnalyzer()`: empty graphs, `max_depth = 5`, the default
thresholds. -/
def emptyAnalyzerState : ImpactAnalyzerState :=
  { dependency_graph := DiGraph.empty
    node_symbols := []
    max_depth := 5
    risk_thresholds := defaultRiskThresholds }

/-- The per-changed-symbol loop body of `analyze_symbol_impact`,
accumulating (direct impacts, indirect impacts, affected files, business
impact). -/
def impactFold (st : ImpactAnalyzerState)
    (acc : List String × List String × List String × List String)
    (symbol : CodeSymbol) : List String × List String × List String × List String :=
  let direct := acc.1
  let indirect := acc.2.1
  let files := acc.2.2.1
  let business := acc.2.2.2
  let files1 := insertNew files symbol.file_path
  let direct_deps := get_direct_dependents st.dependency_graph symbol.id
  let indirect_deps :=
    get_indirect_dependents st.dependency_graph symbol.id st.max_depth
  let files2 := (direct_deps ++ indirect_deps).foldl
    (fun fs dep_id =>
      if dep_id ∈ st.dependency_graph.nodes then
        match dictLookup st.node_symbols dep_id with
        | some dep_symbol => insertNew fs dep_symbol.file_path
        | none => fs
      else fs) files1
  (direct ++ direct_deps, indirect ++ indirect_deps, files2,
    business ++ assess_business_impact symbol)

/-- Model of `analyze_symbol_impact(changed_symbols)`: accumulate per-symbol
impacts, deduplicate, then score risk and confidence. Python's
order-arbitrary `list(set(...))` is modelled as first-occurrence
deduplication, and the `affected_files` set as an insertion-ordered list. -/
def analyze_symbol_impact (st : ImpactAnalyzerState) (changed_symbols : List CodeSymbol) :
    ChangeAnalysis :=
  let acc := changed_symbols.foldl (impactFold st) ([], [], [], [])
  let direct_impacts := acc.1.dedup
  let indirect_impacts := acc.2.1.dedup
  let affected_files := acc.2.2.1
  { changed_symbols := changed_symbols
    direct_impacts := direct_impacts
    indirect_impacts := indirect_impacts
    affected_files := affected_files
    risk_level := calculate_risk_level st.risk_thresholds direct_impacts.length
      indirect_impacts.length affected_files.length
    confidence_score := calculate_confidence_score st.dependency_graph
      direct_impacts indirect_impacts
    business_impact := acc.2.2.2.dedup
    suggested_tests := [] }

/-- An idealized IEEE double as produced by the similarity computation:
either NaN or an exact real value (rounding is idealized away; NaN is the
one IEEE feature the zero-norm claims depend on). -/
inductive NpFloat where
  | nan : NpFloat
  | val (x : ℝ) : NpFloat

/-- Model of `np.dot` on two stored vectors (numpy truncates nothing here: all
embeddings share the model dimension; `zip` makes the model total). -/
def npDot (a b : List ℚ) : ℚ :=
  (a.zip b).foldl (fun s p => s + p.1 * p.2) 0

/-- The squared Euclidean norm of a stored vector. -/
def npNormSq (v : List ℚ) : ℚ :=
  v.foldl (fun s x => s + x * x) 0

/-- Model of `np.linalg.norm`: `npNorm v = sqrt (npNormSq v)`. -/
noncomputable def npNorm (v : List ℚ) : ℝ :=
  Real.sqrt ((npNormSq v : ℚ) : ℝ)

/-- The similarity expression of `find_similar_symbols`:
`np.dot(q, e) / (np.linalg.norm(q) * np.linalg.norm(e))`, with no guard on
the denominator. A zero denominator arises exactly when one vector has
zero norm, which (exactly, even in floats) forces the numerator to zero,
so the IEEE outcome of the unguarded division is `0.0/0.0 = NaN`. -/
noncomputable def npCosine (q e : List ℚ) : NpFloat :=
  if npNorm q * npNorm e = 0 then NpFloat.nan
  else NpFloat.val (((npDot q e : ℚ) : ℝ) / (npNorm q * npNorm e))

/-- Strict `<` on scores as CPython compares floats: any comparison with
NaN is false. -/
noncomputable def npLt (a b : NpFloat) : Bool :=
  match a, b with
  | NpFloat.val x, NpFloat.val y => decide (x < y)
  | _, _ => false

/-- One stable descending insertion step: `x` is placed before the first
element strictly below it, hence after every earlier element with an equal
key. -/
def insertDesc {α : Type} (lt : α → α → Bool) (x : α) : List α → List α
  | [] => [x]
  | y :: ys => if lt y x then x :: y :: ys else y :: insertDesc lt x ys

/-- Model of `list.sort(key=..., reverse=True)` as a stable descending
insertion sort. For comparable keys — a strict weak order, here any run
without a NaN score — stability plus the comparator determine the output
uniquely, so this coincides with CPython's stable timsort under
`reverse=True`. With NaN keys CPython's comparison-based output is
implementation-defined (a NaN can mask an existing run, leaving e.g.
`[0.1, nan, 0.3, 0.2]` unchanged) and is NOT modelled: sortedness is
asserted below only under a no-NaN hypothesis, and every concrete
instance evaluates the sort on a list where the two sorts coincide (a
single element, or comparable keys). -/
def pySortDesc {α : Type} (lt : α → α → Bool) (l : List α) : List α :=
  l.foldl (fun acc x => insertDesc lt x acc) []

/-- One entry of `find_similar_symbols`' result list. -/
structure SimilarityResult where
  symbol : CodeSymbol
  module_path : String
  similarity_score : NpFloat

/-- A module record as the indexer constructs it (`CodeModule(path=...,
file_path=..., symbols=...)`); the dataclass in `models/code_symbol.py`
declares further fields the indexer never supplies, so the constructed
shape is modelled from its use. -/
structure CodeModule where
  path : String
  file_path : String
  symbols : List CodeSymbol
deriving Repr, DecidableEq

/-- The four in-memory tables of a `CodebaseIndexer`. -/
structure IndexerState where
  symbol_index : List (String × (CodeSymbol × String))
  vector_db : List (String × List ℚ)
  import_graph : List (String × (List String × List String))
  module_index : List (String × CodeModule)

/-- Model of `find_similar_symbols(query, top_k)`, with the query's embedding vector
(the external `SentenceTransformer.encode`, fixed per the spec's
determinism assumption) supplied directly: empty-index guard, cosine
similarity against each stored vector in insertion order, stable
descending sort, truncation to `top_k`, and symbol lookup of each
surviving identity. -/
noncomputable def find_similar_symbols (st : IndexerState) (query_embedding : List ℚ)
    (top_k : ℕ) : List SimilarityResult :=
  if st.vector_db = [] ∨ st.symbol_index = [] then []
  else
    let similarities := st.vector_db.map
      (fun kv => (kv.1, npCosine query_embedding kv.2))
    let sorted := pySortDesc (fun a b => npLt a.2 b.2) similarities
    (sorted.take top_k).filterMap
      (fun kv => (dictLookup st.symbol_index kv.1).map
        (fun info =>
          { symbol := info.1, module_path := info.2, similarity_score := kv.2 }))

/-- Model of `load_index()`: each argument is the outcome of opening and parsing one
of the four persisted JSON files, in the order the method reads them
(`none` = unreadable or corrupt). The single `try/except` returning
`False` is the early-`false` cascade; the sequential `self.X = ...`
assignments are the partial state updates that precede a later failure. -/
def load_index (st : IndexerState)
    (t1 : Option (List (String × (CodeSymbol × String))))
    (t2 : Option (List (String × List ℚ)))
    (t3 : Option (List (String × (List String × List String))))
    (t4 : Option (List (String × CodeModule))) : Bool × IndexerState :=
  match t1 with
  | none => (false, st)
  | some s1 =>
    let st1 := { st with symbol_index := s1 }
    match t2 with
    | none => (false, st1)
    | some s2 =>
      let st2 := { st1 with vector_db := s2 }
      match t3 with
      | none => (false, st2)
      | some s3 =>
        let st3 := { st2 with import_graph := s3 }
        match t4 with
        | none => (false, st3)
        | some s4 => (true, { st3 with module_index := s4 })

/-- A concrete symbol record used in the concrete instances below. -/
def mkSymbol (id name : String) (params : List String) : CodeSymbol :=
  { id := id, name := name, symbol_type := "function", file_path := "m.py",
    start_line := 1, end_line := 3, signature := "def f", docstring := none,
    parent := none, parameters := params, return_type := none,
    complexity := 1, complexity_score := 1 }

/-- The old snapshot of `f`, with parameters `[a, b]`. -/
def oldF : CodeSymbol := mkSymbol ("m::f::function") ("f") ["a", "b"]

/-- The new snapshot of `f`, with parameter `b` removed. -/
def newF : CodeSymbol := mkSymbol ("m::f::function") ("f") ["a"]

/-- A symbol whose stored embedding is the zero vector. -/
def symZ : CodeSymbol := mkSymbol ("m::z::function") ("z") []

/-- An index holding one symbol with a zero-norm embedding. -/
def stZeroNorm : IndexerState :=
  { symbol_index := [(("m::z::function"), (symZ, ("m")))],
    vector_db := [(("m::z::function"), [0, 0])],
    import_graph := [], module_index := [] }

/-- Symbol `aaa`, whose identity sorts before `bbb`. -/
def symA : CodeSymbol := mkSymbol ("m::aaa::function") ("aaa") []

/-- Symbol `bbb`, inserted into the index before `aaa`. -/
def symB : CodeSymbol := mkSymbol ("m::bbb::function") ("bbb") []

/-- An index holding `bbb` then `aaa` with identical embeddings, so a query
ties their similarity scores. -/
def stTied : IndexerState :=
  { symbol_index := [(("m::bbb::function"), (symB, ("m"))),
      (("m::aaa::function"), (symA, ("m")))],
    vector_db := [(("m::bbb::function"), [1, 0]), (("m::aaa::function"), [1, 0])],
    import_graph := [], module_index := [] }

/-- The same index as `stTied` with the two insertions swapped: `aaa`
before `bbb`. -/
def stTiedRev : IndexerState :=
  { symbol_index := [(("m::aaa::function"), (symA, ("m"))),
      (("m::bbb::function"), (symB, ("m")))],
    vector_db := [(("m::aaa::function"), [1, 0]), (("m::bbb::function"), [1, 0])],
    import_graph := [], module_index := [] }

/-- A reference between two present symbols. -/
def refAB : CodeReference :=
  { source_symbol_id := ("a"), target_symbol_id := ("b"),
    reference_type := ("call") }

/-- A dangling reference: its target is not in the symbol table. -/
def refDangling : CodeReference :=
  { source_symbol_id := ("a"), target_symbol_id := ("missing"),
    reference_type := ("call") }

/-- A two-symbol table. -/
def twoSyms : List (String × CodeSymbol) :=
  [(("a"), mkSymbol ("a") ("a") []), (("b"), mkSymbol ("b") ("b") [])]

/-- A one-symbol table. -/
def oneSym : List (String × CodeSymbol) :=
  [(("a"), mkSymbol ("a") ("a") [])]

/-- A fresh indexer state with all four tables empty. -/
def emptyIndexerState : IndexerState :=
  { symbol_index := [], vector_db := [], import_graph := [], module_index := [] }

/-- A persisted symbol table used in the corrupt-load scenario. -/
def tblLoaded : List (String × (CodeSymbol × String)) :=
  [(("s"), (mkSymbol ("s") ("s") [], ("m")))]

/-- Invariant proof for the BFS loop: the final visited list is
duplicate-free, and every accumulated dependent has a reference path of
length at most `maxDepth` to the start symbol. -/
theorem bfsLoop_spec (g : DiGraph) (maxDepth : ℕ) (sid : String)
    (queue : List (String × ℕ)) (visited acc : List String)
    (hq : ∀ x ∈ queue, x.1 ∈ g.nodes) :
    visited.Nodup →
    (∀ x ∈ queue, HasPath g x.1 sid x.2) →
    (∀ n ∈ acc, ∃ k, k ≤ maxDepth ∧ HasPath g n sid k) →
    (bfsLoop g maxDepth queue visited acc hq).1.Nodup ∧
      ∀ n ∈ (bfsLoop g maxDepth queue visited acc hq).2,
        ∃ k, k ≤ maxDepth ∧ HasPath g n sid k := by
  induction queue, visited, acc, hq using bfsLoop.induct g maxDepth with
  | case1 visited acc hx1 hx2 =>
    intro hv _ hacc
    rw [bfsLoop]
    exact ⟨hv, hacc⟩
  | case2 current depth rest visited acc hq hd hx ih =>
    intro hv hqp hacc
    rw [bfsLoop, if_pos hd]
    exact ih hv (fun x hx2 => hqp x (List.mem_cons_of_mem _ hx2)) hacc
  | case3 current depth rest visited acc hq hd hcv hx ih =>
    intro hv hqp hacc
    rw [bfsLoop, if_neg hd, dif_pos hcv]
    exact ih hv (fun x hx2 => hqp x (List.mem_cons_of_mem _ hx2)) hacc
  | case4 current depth rest visited acc hq hd hcv hx ih =>
    intro hv hqp hacc
    rw [bfsLoop, if_neg hd, dif_neg hcv]
    apply ih
    · exact List.nodup_cons.mpr ⟨hcv, hv⟩
    · intro x hx2
      rcases List.mem_append.mp hx2 with h1 | h1
      · exact hqp x (List.mem_cons_of_mem _ h1)
      · rcases List.mem_map.mp h1 with ⟨p, hp, rfl⟩
        have hedge : (p, current) ∈ g.edges :=
          (g.mem_predecessors current p).mp (List.mem_filter.mp hp).1
        exact HasPath.step hedge (hqp (current, depth) (List.mem_cons_self _ _))
    · intro n hn
      by_cases h0 : 0 < depth
      · rw [dif_pos h0] at hn
        rcases List.mem_append.mp hn with h1 | h1
        · exact hacc n h1
        · have hedge : (n, current) ∈ g.edges :=
            (g.mem_predecessors current n).mp (List.mem_filter.mp h1).1
          exact ⟨depth + 1, by omega,
            HasPath.step hedge (hqp (current, depth) (List.mem_cons_self _ _))⟩
      · rw [dif_neg h0] at hn
        exact hacc n hn

/-- C1: for every dependency graph (cyclic or not), the indirect-impact
traversal `_get_indirect_dependents(symbol_id, max_depth)` terminates (the
model is a total function, by the well-founded measure of `bfsLoop`),
visits each node at most once (the final visited list has no duplicates),
and returns no node whose BFS distance from the changed symbol exceeds
`max_depth` (every returned node has a reference path of length at most
`max_depth` to the changed symbol, so its BFS distance is at most
`max_depth`). -/
theorem C1_bfs_termination_and_depth_bound (g : DiGraph) (symbol_id : String)
    (max_depth : ℕ) :
    (bfsState g symbol_id max_depth).1.Nodup ∧
      ∀ n ∈ get_indirect_dependents g symbol_id max_depth,
        ∃ k, k ≤ max_depth ∧ HasPath g n symbol_id k := by
  by_cases h : symbol_id ∈ g.nodes
  · have hs := bfsLoop_spec g max_depth symbol_id [(symbol_id, 0)] [] []
      (by intro x hx; rcases List.mem_singleton.mp hx with rfl; exact h)
      List.nodup_nil
      (by
        intro x hx
        rcases List.mem_singleton.mp hx with rfl
        exact HasPath.refl symbol_id)
      (by intro n hn; cases hn)
    unfold get_indirect_dependents bfsState
    rw [dif_pos h]
    exact ⟨hs.1, fun n hn => hs.2 n (List.mem_dedup.mp hn)⟩
  · unfold get_indirect_dependents bfsState
    rw [dif_neg h]
    exact ⟨List.nodup_nil, by intro n hn; cases hn⟩

/-- C2: for all non-negative counts and ascending thresholds, the risk
level is the score `direct + 0.3*indirect + 0.5*files` mapped through the
thresholds with inclusive lower bounds: a score exactly equal to a
threshold lands in the higher of the two adjacent levels, at every
boundary. -/
theorem C2_risk_threshold_mapping (th : RiskThresholds)
    (direct_count indirect_count file_count : ℕ)
    (hmh : th.medium ≤ th.high) (hhc : th.high ≤ th.critical) :
    (calculate_risk_level th direct_count indirect_count file_count = "critical" ↔
      th.critical ≤ impactScore direct_count indirect_count file_count) ∧
    (calculate_risk_level th direct_count indirect_count file_count = "high" ↔
      th.high ≤ impactScore direct_count indirect_count file_count ∧
        impactScore direct_count indirect_count file_count < th.critical) ∧
    (calculate_risk_level th direct_count indirect_count file_count = "medium" ↔
      th.medium ≤ impactScore direct_count indirect_count file_count ∧
        impactScore direct_count indirect_count file_count < th.high) ∧
    (calculate_risk_level th direct_count indirect_count file_count = "low" ↔
      impactScore direct_count indirect_count file_count < th.medium) := by
  have hsc : ((direct_count : ℚ) + ((indirect_count : ℚ) * (3 / 10)) +
      ((file_count : ℚ) * (1 / 2))) = impactScore direct_count indirect_count file_count := by
    unfold impactScore; ring
  simp only [calculate_risk_level]
  rw [hsc]
  split_ifs with h1 h2 h3
  · exact ⟨iff_of_true rfl h1,
      iff_of_false (by decide) (by rintro ⟨hA, hB⟩; linarith),
      iff_of_false (by decide) (by rintro ⟨hA, hB⟩; linarith),
      iff_of_false (by decide) (by intro hB; linarith)⟩
  · exact ⟨iff_of_false (by decide) h1,
      iff_of_true rfl ⟨h2, not_le.mp h1⟩,
      iff_of_false (by decide) (by rintro ⟨hA, hB⟩; linarith),
      iff_of_false (by decide) (by intro hB; linarith)⟩
  · exact ⟨iff_of_false (by decide) h1,
      iff_of_false (by decide) (fun hc => h2 hc.1),
      iff_of_true rfl ⟨h3, not_le.mp h2⟩,
      iff_of_false (by decide) (by intro hB; linarith)⟩
  · exact ⟨iff_of_false (by decide) h1,
      iff_of_false (by decide) (fun hc => h2 hc.1),
      iff_of_false (by decide) (fun hc => h3 hc.1),
      iff_of_true rfl (not_le.mp h3)⟩

/-- Witness for C2 at the default configuration with a score exactly on
the `high` boundary (direct count 30). -/
theorem C2_risk_threshold_mapping_witness :
    calculate_risk_level defaultRiskThresholds 30 0 0 = "high" ↔
      defaultRiskThresholds.high ≤ impactScore 30 0 0 ∧
        impactScore 30 0 0 < defaultRiskThresholds.critical :=
  (C2_risk_threshold_mapping defaultRiskThresholds 30 0 0 (by decide) (by decide)).2.1

/-- C9: on an empty repository (no changed symbols, empty dependency
graph) the impact analysis returns zero direct and indirect impacts, no
affected files, risk level low, and the confidence floor 0.5; the model is
a total function, so no error can occur. -/
theorem C9_empty_input_report :
    analyze_symbol_impact emptyAnalyzerState [] =
      { changed_symbols := [], direct_impacts := [], indirect_impacts := [],
        affected_files := [], risk_level := "low", confidence_score := 1 / 2,
        business_impact := [], suggested_tests := [] } := by
  simp only [analyze_symbol_impact, emptyAnalyzerState, defaultRiskThresholds,
    DiGraph.empty, calculate_risk_level, calculate_confidence_score,
    List.foldl_nil, List.dedup_nil, List.length_nil]
  norm_num

/-- Every breaking-change record reports the identity of the old-table
entry that produced it. -/
theorem breakingChangeRecords_symbolId (g : DiGraph)
    (new_symbols : List (String × CodeSymbol)) (e : String × CodeSymbol)
    (r : BreakingChange) (hr : r ∈ breakingChangeRecords g new_symbols e) :
    r.symbolId = e.1 := by
  rcases e with ⟨sid, oldS⟩
  simp only [breakingChangeRecords] at hr
  rcases hdl : dictLookup new_symbols sid with _ | newS <;> rw [hdl] at hr
  · rcases List.mem_singleton.mp hr with rfl
    rfl
  · rcases List.mem_append.mp hr with h1 | h1
    · split at h1
      · rcases List.mem_singleton.mp h1 with rfl; rfl
      · cases h1
    · split at h1
      · rcases List.mem_singleton.mp h1 with rfl; rfl
      · cases h1

/-- C10: a symbol identity absent from the old snapshot — in particular a
purely added symbol — never appears in the breaking-changes list, whatever
the new snapshot holds. -/
theorem C10_added_symbols_not_reported (g : DiGraph)
    (old_symbols new_symbols : List (String × CodeSymbol)) (symbol_id : String)
    (h : symbol_id ∉ old_symbols.map Prod.fst) :
    ∀ r ∈ analyze_breaking_changes g old_symbols new_symbols,
      r.symbolId ≠ symbol_id := by
  intro r hr
  unfold analyze_breaking_changes at hr
  rcases List.mem_flatMap.mp hr with ⟨e, he, hre⟩
  rw [breakingChangeRecords_symbolId g new_symbols e r hre]
  intro heq
  exact h (heq ▸ List.mem_map_of_mem Prod.fst he)

/-- Witness for C10: a two-entry diff where `g` exists only in the new
snapshot; no record mentions it. -/
theorem C10_added_symbols_not_reported_witness :
    (("g" : String) ∉ [(("m::f::function"), oldF)].map Prod.fst) ∧
      ∀ r ∈ analyze_breaking_changes DiGraph.empty [(("m::f::function"), oldF)]
        [(("m::f::function"), newF), (("g"), mkSymbol ("g") ("g") [])],
        r.symbolId ≠ "g" :=
  ⟨by decide, C10_added_symbols_not_reported DiGraph.empty _ _ _ (by decide)⟩

/-- C4: a symbol present in the old snapshot and absent from the new one
is reported as removed with risk level critical, for every value of its
attributes (complexity included). -/
theorem C4_deleted_symbol_critical (g : DiGraph)
    (old_symbols new_symbols : List (String × CodeSymbol)) (symbol_id : String)
    (old_symbol : CodeSymbol)
    (hold : (symbol_id, old_symbol) ∈ old_symbols)
    (hnew : symbol_id ∉ new_symbols.map Prod.fst) :
    BreakingChange.symbol_removed symbol_id old_symbol.name old_symbol.symbol_type
      "critical" (get_direct_dependents g symbol_id)
      ∈ analyze_breaking_changes g old_symbols new_symbols := by
  unfold analyze_breaking_changes
  apply List.mem_flatMap.mpr
  refine ⟨(symbol_id, old_symbol), hold, ?_⟩
  simp only [breakingChangeRecords]
  rw [(dictLookup_eq_none_iff new_symbols symbol_id).mpr hnew]
  exact List.mem_singleton.mpr rfl

/-- Witness for C4: deleting `f` from the snapshot yields the critical
symbol-removed record. -/
theorem C4_deleted_symbol_critical_witness :
    BreakingChange.symbol_removed ("m::f::function") oldF.name oldF.symbol_type
      ("critical") (get_direct_dependents DiGraph.empty ("m::f::function"))
      ∈ analyze_breaking_changes DiGraph.empty [(("m::f::function"), oldF)] [] :=
  C4_deleted_symbol_critical DiGraph.empty _ _ _ _ (by decide) (by decide)

/-- The parameter-change record produced for a surviving identity whose
parameter set changed. -/
theorem parameter_change_mem (g : DiGraph)
    (old_symbols new_symbols : List (String × CodeSymbol)) (symbol_id : String)
    (oS nS : CodeSymbol)
    (hold : (symbol_id, oS) ∈ old_symbols)
    (hnew : dictLookup new_symbols symbol_id = some nS)
    (hne : oS.parameters.toFinset ≠ nS.parameters.toFinset) :
    BreakingChange.parameter_change symbol_id oS.name
      (oS.parameters.toFinset \ nS.parameters.toFinset)
      (nS.parameters.toFinset \ oS.parameters.toFinset)
      (if oS.parameters.toFinset \ nS.parameters.toFinset ≠ ∅ then "high" else "medium")
      (get_direct_dependents g symbol_id)
      ∈ analyze_breaking_changes g old_symbols new_symbols := by
  unfold analyze_breaking_changes
  apply List.mem_flatMap.mpr
  refine ⟨(symbol_id, oS), hold, ?_⟩
  simp only [breakingChangeRecords]
  rw [hnew]
  apply List.mem_append_right
  rw [if_pos hne]
  exact List.mem_singleton.mpr rfl

/-- C3: the concrete scenario `f(a, b) → f(a)` yields a parameter-change
record with `removed_params = {b}` and risk high; in general, an old
parameter set not contained in the new one yields risk high, and an
additions-only change yields risk medium. -/
theorem C3_parameter_change_risk :
    (BreakingChange.parameter_change ("m::f::function") ("f") ({"b"} : Finset String)
      (∅ : Finset String) ("high") []
      ∈ analyze_breaking_changes DiGraph.empty
        [(("m::f::function"), oldF)] [(("m::f::function"), newF)]) ∧
    (∀ (g : DiGraph) (old_symbols new_symbols : List (String × CodeSymbol))
      (symbol_id : String) (oS nS : CodeSymbol),
      (symbol_id, oS) ∈ old_symbols →
      dictLookup new_symbols symbol_id = some nS →
      ¬ oS.parameters.toFinset ⊆ nS.parameters.toFinset →
      BreakingChange.parameter_change symbol_id oS.name
        (oS.parameters.toFinset \ nS.parameters.toFinset)
        (nS.parameters.toFinset \ oS.parameters.toFinset)
        ("high") (get_direct_dependents g symbol_id)
        ∈ analyze_breaking_changes g old_symbols new_symbols) ∧
    (∀ (g : DiGraph) (old_symbols new_symbols : List (String × CodeSymbol))
      (symbol_id : String) (oS nS : CodeSymbol),
      (symbol_id, oS) ∈ old_symbols →
      dictLookup new_symbols symbol_id = some nS →
      oS.parameters.toFinset ⊆ nS.parameters.toFinset →
      oS.parameters.toFinset ≠ nS.parameters.toFinset →
      BreakingChange.parameter_change symbol_id oS.name
        (oS.parameters.toFinset \ nS.parameters.toFinset)
        (nS.parameters.toFinset \ oS.parameters.toFinset)
        ("medium") (get_direct_dependents g symbol_id)
        ∈ analyze_breaking_changes g old_symbols new_symbols) := by
  refine ⟨by decide, ?_, ?_⟩
  · intro g old_symbols new_symbols symbol_id oS nS hold hnew hnsub
    have hne : oS.parameters.toFinset ≠ nS.parameters.toFinset := by
      intro he; exact hnsub (he ▸ Finset.Subset.refl _)
    have hdiff : oS.parameters.toFinset \ nS.parameters.toFinset ≠ ∅ := by
      intro he; exact hnsub (Finset.sdiff_eq_empty_iff_subset.mp he)
    have h := parameter_change_mem g old_symbols new_symbols symbol_id oS nS hold hnew hne
    rwa [if_pos hdiff] at h
  · intro g old_symbols new_symbols symbol_id oS nS hold hnew hsub hne
    have hdiff : oS.parameters.toFinset \ nS.parameters.toFinset = ∅ :=
      Finset.sdiff_eq_empty_iff_subset.mpr hsub
    have h := parameter_change_mem g old_symbols new_symbols symbol_id oS nS hold hnew hne
    rwa [if_neg (by simpa using hdiff)] at h

/-- Witness for C3: the general removed-parameter branch applied to the
concrete `f(a, b) → f(a)` snapshots. -/
theorem C3_parameter_change_risk_witness :
    BreakingChange.parameter_change ("m::f::function") oldF.name
      (oldF.parameters.toFinset \ newF.parameters.toFinset)
      (newF.parameters.toFinset \ oldF.parameters.toFinset)
      ("high") (get_direct_dependents DiGraph.empty ("m::f::function"))
      ∈ analyze_breaking_changes DiGraph.empty
        [(("m::f::function"), oldF)] [(("m::f::function"), newF)] :=
  C3_parameter_change_risk.2.1 DiGraph.empty _ _ _ _ newF (by decide) (by decide)
    (by decide)

/-- Zero-norm inputs make the unguarded division produce NaN. -/
theorem npCosine_eq_nan (q e : List ℚ) (h : npNormSq q = 0 ∨ npNormSq e = 0) :
    npCosine q e = NpFloat.nan := by
  unfold npCosine
  rw [if_pos]
  unfold npNorm
  rcases h with h | h
  · rw [h, Rat.cast_zero, Real.sqrt_zero, zero_mul]
  · rw [h, Rat.cast_zero, Real.sqrt_zero, mul_zero]

theorem npLt_trans (a b c : NpFloat) (h1 : npLt a b = true) (h2 : npLt b c = true) :
    npLt a c = true := by
  cases a <;> cases b <;> cases c <;> simp [npLt] at h1 h2 ⊢
  exact lt_trans h1 h2

theorem npLt_asymm (a b : NpFloat) (h : npLt a b = true) : npLt b a = false := by
  cases a <;> cases b <;> simp [npLt] at h ⊢
  linarith

theorem mem_insertDesc {α : Type} (lt : α → α → Bool) (x : α) (l : List α) (z : α) :
    z ∈ insertDesc lt x l ↔ z = x ∨ z ∈ l := by
  induction l with
  | nil => simp [insertDesc]
  | cons y ys ih =>
    unfold insertDesc
    split
    · simp only [List.mem_cons]
    · simp only [List.mem_cons, ih]
      tauto

/-- Stable descending insertion preserves the "no later element is
strictly greater" invariant, for a transitive asymmetric comparison. -/
theorem insertDesc_pairwise {α : Type} (lt : α → α → Bool)
    (htrans : ∀ a b c, lt a b = true → lt b c = true → lt a c = true)
    (hasymm : ∀ a b, lt a b = true → lt b a = false)
    (x : α) (l : List α) (hl : l.Pairwise (fun a b => lt a b = false)) :
    (insertDesc lt x l).Pairwise (fun a b => lt a b = false) := by
  induction l with
  | nil =>
    refine List.pairwise_cons.mpr ⟨?_, List.Pairwise.nil⟩
    intro z hz
    cases hz
  | cons y ys ih =>
    rcases List.pairwise_cons.mp hl with ⟨hy, hys⟩
    unfold insertDesc
    split
    · rename_i hyx
      refine List.pairwise_cons.mpr ⟨?_, hl⟩
      intro z hz
      rcases List.mem_cons.mp hz with rfl | hz2
      · exact hasymm z x hyx
      · cases hxz : lt x z
        · rfl
        · exact absurd (htrans y x z hyx hxz) (by rw [hy z hz2]; simp)
    · rename_i hyx
      refine List.pairwise_cons.mpr ⟨?_, ih hys⟩
      intro z hz
      rcases (mem_insertDesc lt x ys z).mp hz with rfl | hz2
      · simpa using hyx
      · exact hy z hz2

/-- A stable descending insertion sort is descending: no later element is
strictly greater than an earlier one. -/
theorem pySortDesc_pairwise {α : Type} (lt : α → α → Bool)
    (htrans : ∀ a b c, lt a b = true → lt b c = true → lt a c = true)
    (hasymm : ∀ a b, lt a b = true → lt b a = false)
    (l : List α) :
    (pySortDesc lt l).Pairwise (fun a b => lt a b = false) := by
  suffices h : ∀ acc : List α, acc.Pairwise (fun a b => lt a b = false) →
      (l.foldl (fun acc x => insertDesc lt x acc) acc).Pairwise
        (fun a b => lt a b = false) from
    h [] List.Pairwise.nil
  induction l with
  | nil => intro acc hacc; exact hacc
  | cons y ys ih =>
    intro acc hacc
    rw [List.foldl_cons]
    exact ih _ (insertDesc_pairwise lt htrans hasymm y acc hacc)

/-- The node-adding phase of `build_dependency_graphs` creates no edges. -/
theorem foldl_addNode_edges (ids : List String) :
    ∀ g : DiGraph, (ids.foldl (fun g n => g.addNode n) g).edges = g.edges := by
  induction ids with
  | nil => intro g; rfl
  | cons a l ih => intro g; rw [List.foldl_cons, ih, DiGraph.addNode_edges]

/-- One reference-loop step adds a dependency edge only for an admitted
reference. -/
theorem addReference_dep (ids : List String) (gs : AnalyzerGraphs)
    (ref : CodeReference) (a b : String) :
    (a, b) ∈ (addReference ids gs ref).dependency_graph.edges →
      (a, b) ∈ gs.dependency_graph.edges ∨
        (ref.source_symbol_id = a ∧ ref.target_symbol_id = b ∧ a ∈ ids ∧ b ∈ ids) := by
  unfold addReference
  split
  · rename_i hc
    intro h
    rcases (DiGraph.mem_addEdge_edges _ _ _ _ _).mp h with h1 | ⟨ha, hb⟩
    · exact Or.inl h1
    · subst ha; subst hb
      exact Or.inr ⟨rfl, rfl, hc.1, hc.2⟩
  · exact fun h => Or.inl h

/-- One reference-loop step adds a call edge only for an admitted `call`
reference. -/
theorem addReference_call (ids : List String) (gs : AnalyzerGraphs)
    (ref : CodeReference) (a b : String) :
    (a, b) ∈ (addReference ids gs ref).call_graph.edges →
      (a, b) ∈ gs.call_graph.edges ∨
        (ref.source_symbol_id = a ∧ ref.target_symbol_id = b ∧ a ∈ ids ∧ b ∈ ids ∧
          ref.reference_type = "call") := by
  unfold addReference
  split
  · rename_i hc
    dsimp only
    split
    · rename_i hcall
      intro h
      rcases (DiGraph.mem_addEdge_edges _ _ _ _ _).mp h with h1 | ⟨ha, hb⟩
      · exact Or.inl h1
      · subst ha; subst hb
        exact Or.inr ⟨rfl, rfl, hc.1, hc.2, hcall⟩
    · exact fun h => Or.inl h
  · exact fun h => Or.inl h

/-- One reference-loop step adds an inheritance edge only for an admitted
`inherit` reference. -/
theorem addReference_inherit (ids : List String) (gs : AnalyzerGraphs)
    (ref : CodeReference) (a b : String) :
    (a, b) ∈ (addReference ids gs ref).inheritance_graph.edges →
      (a, b) ∈ gs.inheritance_graph.edges ∨
        (ref.source_symbol_id = a ∧ ref.target_symbol_id = b ∧ a ∈ ids ∧ b ∈ ids ∧
          ref.reference_type = "inherit") := by
  unfold addReference
  split
  · rename_i hc
    dsimp only
    split
    · rename_i hinh
      intro h
      rcases (DiGraph.mem_addEdge_edges _ _ _ _ _).mp h with h1 | ⟨ha, hb⟩
      · exact Or.inl h1
      · subst ha; subst hb
        exact Or.inr ⟨rfl, rfl, hc.1, hc.2, hinh⟩
    · exact fun h => Or.inl h
  · exact fun h => Or.inl h

theorem foldl_addReference_dep (ids : List String) (refs : List CodeReference) :
    ∀ (gs : AnalyzerGraphs) (a b : String),
      (a, b) ∈ (refs.foldl (addReference ids) gs).dependency_graph.edges →
      (a, b) ∈ gs.dependency_graph.edges ∨
        ∃ ref ∈ refs, ref.source_symbol_id = a ∧ ref.target_symbol_id = b ∧
          a ∈ ids ∧ b ∈ ids := by
  induction refs with
  | nil => intro gs a b h; exact Or.inl h
  | cons r rs ih =>
    intro gs a b h
    rw [List.foldl_cons] at h
    rcases ih (addReference ids gs r) a b h with h1 | ⟨ref, hm, hp⟩
    · rcases addReference_dep ids gs r a b h1 with h2 | hp
      · exact Or.inl h2
      · exact Or.inr ⟨r, List.mem_cons_self _ _, hp⟩
    · exact Or.inr ⟨ref, List.mem_cons_of_mem _ hm, hp⟩

theorem foldl_addReference_call (ids : List String) (refs : List CodeReference) :
    ∀ (gs : AnalyzerGraphs) (a b : String),
      (a, b) ∈ (refs.foldl (addReference ids) gs).call_graph.edges →
      (a, b) ∈ gs.call_graph.edges ∨
        ∃ ref ∈ refs, ref.source_symbol_id = a ∧ ref.target_symbol_id = b ∧
          a ∈ ids ∧ b ∈ ids ∧ ref.reference_type = "call" := by
  induction refs with
  | nil => intro gs a b h; exact Or.inl h
  | cons r rs ih =>
    intro gs a b h
    rw [List.foldl_cons] at h
    rcases ih (addReference ids gs r) a b h with h1 | ⟨ref, hm, hp⟩
    · rcases addReference_call ids gs r a b h1 with h2 | hp
      · exact Or.inl h2
      · exact Or.inr ⟨r, List.mem_cons_self _ _, hp⟩
    · exact Or.inr ⟨ref, List.mem_cons_of_mem _ hm, hp⟩

theorem foldl_addReference_inherit (ids : List String) (refs : List CodeReference) :
    ∀ (gs : AnalyzerGraphs) (a b : String),
      (a, b) ∈ (refs.foldl (addReference ids) gs).inheritance_graph.edges →
      (a, b) ∈ gs.inheritance_graph.edges ∨
        ∃ ref ∈ refs, ref.source_symbol_id = a ∧ ref.target_symbol_id = b ∧
          a ∈ ids ∧ b ∈ ids ∧ ref.reference_type = "inherit" := by
  induction refs with
  | nil => intro gs a b h; exact Or.inl h
  | cons r rs ih =>
    intro gs a b h
    rw [List.foldl_cons] at h
    rcases ih (addReference ids gs r) a b h with h1 | ⟨ref, hm, hp⟩
    · rcases addReference_inherit ids gs r a b h1 with h2 | hp
      · exact Or.inl h2
      · exact Or.inr ⟨r, List.mem_cons_self _ _, hp⟩
    · exact Or.inr ⟨ref, List.mem_cons_of_mem _ hm, hp⟩

/-- C5 (amended): the similarity computation is total (the model is a
total function and no exception is raised), but when either the query
vector or a stored vector has zero norm the unguarded division yields NaN,
not 0.0. -/
theorem C5_zero_norm_similarity_nan (q e : List ℚ)
    (h : npNormSq q = 0 ∨ npNormSq e = 0) :
    npCosine q e = NpFloat.nan :=
  npCosine_eq_nan q e h

/-- Witness for C5 at the zero stored vector `[0, 0]`. -/
theorem C5_zero_norm_similarity_nan_witness :
    npNormSq [(0 : ℚ), 0] = 0 ∧ npCosine [1, 0] [0, 0] = NpFloat.nan :=
  ⟨by simp [npNormSq], C5_zero_norm_similarity_nan [1, 0] [0, 0]
    (Or.inr (by simp [npNormSq]))⟩

/-- C5 counterexample to the claim as stated: querying an index whose one
stored embedding is the zero vector returns similarity NaN, not 0.0. -/
theorem C5_zero_norm_counterexample :
    find_similar_symbols stZeroNorm [1, 0] 5 =
      [{ symbol := symZ, module_path := "m", similarity_score := NpFloat.nan }] ∧
    NpFloat.nan ≠ NpFloat.val 0 := by
  have hz : npCosine [1, 0] [0, 0] = NpFloat.nan :=
    npCosine_eq_nan _ _ (Or.inr (by simp [npNormSq]))
  constructor
  · simp [find_similar_symbols, stZeroNorm, pySortDesc, insertDesc, dictLookup, hz,
      symZ]
  · intro h
    cases h

/-- The squared norm is a sum of squares, hence nonnegative. -/
theorem npNormSq_nonneg (v : List ℚ) : 0 ≤ npNormSq v := by
  unfold npNormSq
  suffices h : ∀ init : ℚ, 0 ≤ init → 0 ≤ v.foldl (fun s x => s + x * x) init from
    h 0 le_rfl
  induction v with
  | nil => intro init h; exact h
  | cons a l ih =>
    intro init h
    refine ih _ ?_
    show 0 ≤ init + a * a
    have := mul_self_nonneg a
    linarith

/-- A vector of nonzero squared norm has nonzero norm. -/
theorem npNorm_ne_zero (v : List ℚ) (h : npNormSq v ≠ 0) : npNorm v ≠ 0 := by
  unfold npNorm
  intro hc
  apply h
  have h0 : ((npNormSq v : ℚ) : ℝ) ≤ 0 := Real.sqrt_eq_zero'.mp hc
  have h1 : (0 : ℝ) ≤ ((npNormSq v : ℚ) : ℝ) := by
    exact_mod_cast npNormSq_nonneg v
  exact_mod_cast le_antisymm h0 h1

/-- Nonzero norms make the cosine similarity a finite value, not NaN. -/
theorem npCosine_isVal (q e : List ℚ) (hq : npNormSq q ≠ 0) (he : npNormSq e ≠ 0) :
    ∃ x : ℝ, npCosine q e = NpFloat.val x := by
  unfold npCosine
  rw [if_neg (mul_ne_zero (npNorm_ne_zero q hq) (npNorm_ne_zero e he))]
  exact ⟨_, rfl⟩

/-- The stable descending insertion sort permutes its input: same
members. -/
theorem mem_pySortDesc {α : Type} (lt : α → α → Bool) (l : List α) (z : α) :
    z ∈ pySortDesc lt l ↔ z ∈ l := by
  suffices h : ∀ acc : List α,
      (z ∈ l.foldl (fun acc x => insertDesc lt x acc) acc ↔ z ∈ acc ∨ z ∈ l) by
    simpa [pySortDesc] using h []
  induction l with
  | nil => intro acc; simp
  | cons y ys ih =>
    intro acc
    rw [List.foldl_cons, ih (insertDesc lt y acc), mem_insertDesc]
    simp only [List.mem_cons]
    tauto

/-- Raw sortedness of the search result: no later score compares strictly
greater under the NaN-false comparison. -/
theorem find_similar_pairwise_npLt (st : IndexerState) (query_embedding : List ℚ)
    (top_k : ℕ) :
    (find_similar_symbols st query_embedding top_k).Pairwise
      (fun r1 r2 => npLt r1.similarity_score r2.similarity_score = false) := by
  unfold find_similar_symbols
  split
  · exact List.Pairwise.nil
  · apply List.Pairwise.filterMap
      (R := fun a b : String × NpFloat => npLt a.2 b.2 = false)
    · intro a a' hR b hb b' hb'
      rcases Option.map_eq_some'.mp hb with ⟨info, hinfo, rfl⟩
      rcases Option.map_eq_some'.mp hb' with ⟨info', hinfo', rfl⟩
      exact hR
    · apply List.Pairwise.sublist (List.take_sublist _ _)
      apply pySortDesc_pairwise
      · intro a b c h1 h2
        exact npLt_trans a.2 b.2 c.2 h1 h2
      · intro a b h1
        exact npLt_asymm a.2 b.2 h1

/-- When the query and every stored embedding have nonzero norm, every
returned similarity score is a finite value. -/
theorem find_similar_scores_val (st : IndexerState) (query_embedding : List ℚ)
    (top_k : ℕ) (hq : npNormSq query_embedding ≠ 0)
    (hdb : ∀ kv ∈ st.vector_db, npNormSq kv.2 ≠ 0) :
    ∀ r ∈ find_similar_symbols st query_embedding top_k,
      ∃ x : ℝ, r.similarity_score = NpFloat.val x := by
  intro r hr
  unfold find_similar_symbols at hr
  split at hr
  · cases hr
  · rcases List.mem_filterMap.mp hr with ⟨kv, hkv, hmap⟩
    rcases Option.map_eq_some'.mp hmap with ⟨info, hinfo, rfl⟩
    have hkv2 := (List.take_sublist top_k _).subset hkv
    rw [mem_pySortDesc] at hkv2
    rcases List.mem_map.mp hkv2 with ⟨kv0, hkv0, rfl⟩
    rcases npCosine_isVal query_embedding kv0.2 hq (hdb kv0 hkv0) with ⟨x, hx⟩
    exact ⟨x, hx⟩

/-- C6 (amended): whenever all similarity scores are comparable — the
query and every stored embedding have nonzero norm, so no NaN arises —
the result list is sorted descending by score, and the search is
deterministic (the model is a pure function of the index state and the
query embedding). Ties, however, keep the insertion order of the vector
table, not symbol-identity order. With a NaN score present CPython's
comparison sort gives no ordering guarantee, and none is claimed. -/
theorem C6_search_sorted_descending (st : IndexerState) (query_embedding : List ℚ)
    (top_k : ℕ) (hq : npNormSq query_embedding ≠ 0)
    (hdb : ∀ kv ∈ st.vector_db, npNormSq kv.2 ≠ 0) :
    (find_similar_symbols st query_embedding top_k).Pairwise
      (fun r1 r2 => ∃ x y : ℝ, r1.similarity_score = NpFloat.val x ∧
        r2.similarity_score = NpFloat.val y ∧ y ≤ x) := by
  have hval := find_similar_scores_val st query_embedding top_k hq hdb
  have hpw := find_similar_pairwise_npLt st query_embedding top_k
  refine List.Pairwise.imp_of_mem ?_ hpw
  intro r1 r2 h1 h2 hR
  rcases hval r1 h1 with ⟨x, hx⟩
  rcases hval r2 h2 with ⟨y, hy⟩
  refine ⟨x, y, hx, hy, ?_⟩
  rw [hx, hy] at hR
  simp only [npLt, decide_eq_false_iff_not] at hR
  exact le_of_not_lt hR

/-- Witness for C6 at the tied two-symbol index: all norms are nonzero
and the returned list is sorted descending. -/
theorem C6_search_sorted_descending_witness :
    npNormSq [(1 : ℚ), 0] ≠ 0 ∧
    (find_similar_symbols stTied [1, 0] 5).Pairwise
      (fun r1 r2 => ∃ x y : ℝ, r1.similarity_score = NpFloat.val x ∧
        r2.similarity_score = NpFloat.val y ∧ y ≤ x) :=
  ⟨by norm_num [npNormSq],
    C6_search_sorted_descending stTied [1, 0] 5 (by norm_num [npNormSq])
      (by
        intro kv hkv
        simp only [stTied, List.mem_cons, List.not_mem_nil, or_false] at hkv
        rcases hkv with rfl | rfl <;> norm_num [npNormSq])⟩

/-- C6 counterexample to the identity tie-break: the same two symbols with
the same tied scores come back in the vector table's insertion order —
`bbb` first for one insertion history, `aaa` first for the other — so no
tie-break determined by symbol identity is in effect. -/
theorem C6_tie_break_counterexample :
    find_similar_symbols stTied [1, 0] 5 =
      [{ symbol := symB, module_path := "m", similarity_score := NpFloat.val 1 },
       { symbol := symA, module_path := "m", similarity_score := NpFloat.val 1 }] ∧
    find_similar_symbols stTiedRev [1, 0] 5 =
      [{ symbol := symA, module_path := "m", similarity_score := NpFloat.val 1 },
       { symbol := symB, module_path := "m", similarity_score := NpFloat.val 1 }] ∧
    symA.id ≠ symB.id := by
  have hsq : npNormSq [(1 : ℚ), 0] = 1 := by simp [npNormSq]
  have hnorm : npNorm [(1 : ℚ), 0] = 1 := by
    unfold npNorm
    rw [hsq]
    simp
  have hcos : npCosine [1, 0] [1, 0] = NpFloat.val 1 := by
    unfold npCosine
    rw [hnorm]
    rw [if_neg (by norm_num)]
    have hdot : npDot [(1 : ℚ), 0] [1, 0] = 1 := by simp [npDot]
    rw [hdot]
    norm_num
  have hlt : npLt (NpFloat.val 1) (NpFloat.val 1) = false := by
    simp [npLt]
  refine ⟨?_, ?_, by decide⟩
  · simp [find_similar_symbols, stTied, pySortDesc, insertDesc, dictLookup, hcos,
      hlt, symA, symB]
  · simp [find_similar_symbols, stTiedRev, pySortDesc, insertDesc, dictLookup, hcos,
      hlt, symA, symB]

/-- C7 (amended): a reference becomes an edge — of the general graph, and
of the call/inheritance graph for its type — only if both its endpoint
identities are keys of the symbol table; dangling references are excluded
from all three graphs and silently discarded (the build's outputs are the
three graphs alone, with no side list of unresolved references). -/
theorem C7_edge_admission (symbols : List (String × CodeSymbol))
    (references : List CodeReference) (a b : String) :
    ((a, b) ∈ (build_dependency_graphs symbols references).dependency_graph.edges →
      ∃ ref ∈ references, ref.source_symbol_id = a ∧ ref.target_symbol_id = b ∧
        a ∈ symbols.map Prod.fst ∧ b ∈ symbols.map Prod.fst) ∧
    ((a, b) ∈ (build_dependency_graphs symbols references).call_graph.edges →
      ∃ ref ∈ references, ref.source_symbol_id = a ∧ ref.target_symbol_id = b ∧
        a ∈ symbols.map Prod.fst ∧ b ∈ symbols.map Prod.fst ∧
        ref.reference_type = "call") ∧
    ((a, b) ∈ (build_dependency_graphs symbols references).inheritance_graph.edges →
      ∃ ref ∈ references, ref.source_symbol_id = a ∧ ref.target_symbol_id = b ∧
        a ∈ symbols.map Prod.fst ∧ b ∈ symbols.map Prod.fst ∧
        ref.reference_type = "inherit") := by
  have hg0 : ((symbols.map Prod.fst).foldl (fun g n => g.addNode n) DiGraph.empty).edges
      = [] := foldl_addNode_edges (symbols.map Prod.fst) DiGraph.empty
  refine ⟨?_, ?_, ?_⟩
  · intro h
    rcases foldl_addReference_dep (symbols.map Prod.fst) references _ a b h with h1 | hex
    · rw [hg0] at h1
      cases h1
    · exact hex
  · intro h
    rcases foldl_addReference_call (symbols.map Prod.fst) references _ a b h with h1 | hex
    · rw [hg0] at h1
      cases h1
    · exact hex
  · intro h
    rcases foldl_addReference_inherit (symbols.map Prod.fst) references _ a b h
        with h1 | hex
    · rw [hg0] at h1
      cases h1
    · exact hex

/-- Witness for C7: an admitted call edge between present symbols is
traced back to its reference. -/
theorem C7_edge_admission_witness :
    ∃ ref ∈ [refAB],
      ref.source_symbol_id = "a" ∧ ref.target_symbol_id = "b" ∧
        ("a" : String) ∈ twoSyms.map Prod.fst ∧
        ("b" : String) ∈ twoSyms.map Prod.fst ∧
        ref.reference_type = "call" :=
  (C7_edge_admission twoSyms [refAB] "a" "b").2.1 (by decide)

/-- C7 counterexample to the side-list clause: a dangling reference leaves
no trace in the build's entire output — all three edge sets are empty and
only the present symbol is a node; no unresolved-reference list exists. -/
theorem C7_no_side_list_counterexample :
    (build_dependency_graphs oneSym [refDangling]).dependency_graph.edges = [] ∧
    (build_dependency_graphs oneSym [refDangling]).call_graph.edges = [] ∧
    (build_dependency_graphs oneSym [refDangling]).inheritance_graph.edges = [] ∧
    (build_dependency_graphs oneSym [refDangling]).dependency_graph.nodes = [("a")] := by
  refine ⟨?_, ?_, ?_, ?_⟩ <;> decide

/-- C8 (amended): `load_index` reports success exactly when all four
persisted tables parse, and reports failure (returns `False`) as soon as
one is corrupt; but the tables are loaded sequentially inside one
`try/except`, so only a first-table failure leaves the state unchanged —
a later failure leaves the earlier tables already overwritten. -/
theorem C8_load_index_failure (st : IndexerState)
    (t1 : Option (List (String × (CodeSymbol × String))))
    (t2 : Option (List (String × List ℚ)))
    (t3 : Option (List (String × (List String × List String))))
    (t4 : Option (List (String × CodeModule))) :
    ((load_index st t1 t2 t3 t4).1 = true ↔
      t1.isSome ∧ t2.isSome ∧ t3.isSome ∧ t4.isSome) ∧
    (t1 = none → (load_index st t1 t2 t3 t4).2 = st) := by
  rcases t1 with _ | s1 <;> rcases t2 with _ | s2 <;> rcases t3 with _ | s3 <;>
    rcases t4 with _ | s4 <;> simp [load_index]

/-- Witness for C8: with every table corrupt the load fails and the state
is untouched. -/
theorem C8_load_index_failure_witness :
    ((load_index emptyIndexerState none none none none).1 = true ↔
      (none : Option (List (String × (CodeSymbol × String)))).isSome ∧
      (none : Option (List (String × List ℚ))).isSome ∧
      (none : Option (List (String × (List String × List String)))).isSome ∧
      (none : Option (List (String × CodeModule))).isSome) ∧
    ((none : Option (List (String × (CodeSymbol × String)))) = none →
      (load_index emptyIndexerState none none none none).2 = emptyIndexerState) :=
  C8_load_index_failure emptyIndexerState none none none none

/-- C8 counterexample to the unchanged-state clause: a corrupt second
table makes the load fail, yet the symbol table has already been
overwritten — the state is partially populated. -/
theorem C8_partial_load_counterexample :
    (load_index emptyIndexerState (some tblLoaded) none none none).1 = false ∧
    (load_index emptyIndexerState (some tblLoaded) none none none).2.symbol_index ≠
      emptyIndexerState.symbol_index := by
  constructor
  · rfl
  · decide

end CodeAgent
